import Mathlib

/-!
Verification of the session/lifecycle controller of the `kolibri_daemon`
application (`src/kolibri_daemon/application.py`).

The development shallowly embeds the pieces of the daemon the claims are
about: Python strings become `List Char`, Python `dict` becomes an
association list with distinct keys, Python `set` becomes `Finset`, the
monotonic clock and uuid generation become explicit parameters, and the
GLib timeout sources become `Option Nat` handles plus a fresh-id counter.
-/

/-- One decimal digit character, as produced by Python's `str` on a
non-negative integer, digit by digit. -/
def digitChar (n : Nat) : Char :=
  match n with
  | 0 => '0'
  | 1 => '1'
  | 2 => '2'
  | 3 => '3'
  | 4 => '4'
  | 5 => '5'
  | 6 => '6'
  | 7 => '7'
  | 8 => '8'
  | _ => '9'

/-- Fuel-indexed helper for the decimal rendering of a natural number; the
fuel makes the recursion structural so the kernel can evaluate it. -/
def natToStrAux : Nat → Nat → List Char
  | 0, _ => []
  | fuel + 1, n =>
    if n < 10 then [digitChar n]
    else natToStrAux fuel (n / 10) ++ [digitChar (n % 10)]

/-- Model of Python's `str(user_id)` for a non-negative integer user id
(`LoginTokenManager.__add_login_token` line 369). -/
def natToStr (n : Nat) : List Char := natToStrAux (n + 1) n

/-- Decimal parsing, used only to prove that `natToStr` is injective. -/
def strToNat (l : List Char) : Nat :=
  l.foldl (fun acc c => acc * 10 + (c.toNat - 48)) 0

/-- Model of `token_key.partition(":")[0]`: the part of the string before
the first `':'`, or the whole string when there is none
(`LoginTokenManager.__pop_login_token` line 383). -/
def pyPartitionFst : List Char → List Char
  | [] => []
  | c :: rest => if c = ':' then [] else c :: pyPartitionFst rest

section Dict

variable {α : Type} {β : Type} [DecidableEq α]

/-- Python `dict` lookup `d.get(key, None)` over an association list. -/
def dictGet : List (α × β) → α → Option β
  | [], _ => none
  | (k, v) :: rest, key => if k = key then some v else dictGet rest key

/-- Python `dict` assignment `d[key] = val`: replaces the first binding of
`key` in place, or appends a new binding. -/
def dictSet : List (α × β) → α → β → List (α × β)
  | [], key, val => [(key, val)]
  | (k, v) :: rest, key, val =>
    if k = key then (key, val) :: rest else (k, v) :: dictSet rest key val

/-- Python `dict` removal `d.pop(key, None)` (the removal part): drops the
first binding of `key`, if any. -/
def dictRemove : List (α × β) → α → List (α × β)
  | [], _ => []
  | (k, v) :: rest, key => if k = key then rest else (k, v) :: dictRemove rest key

/-- The keys of an association list are pairwise distinct, as they are for
a Python `dict`. -/
abbrev NodupKeys (s : List (α × β)) : Prop := (s.map Prod.fst).Nodup

lemma dictGet_dictSet_self (s : List (α × β)) (k : α) (v : β) :
    dictGet (dictSet s k v) k = some v := by
  induction s with
  | nil => simp [dictSet, dictGet]
  | cons p rest ih =>
    obtain ⟨k', v'⟩ := p
    by_cases h : k' = k
    · simp [dictSet, dictGet, h]
    · simp [dictSet, dictGet, h, ih]

lemma dictGet_mem {s : List (α × β)} {k : α} {v : β}
    (h : dictGet s k = some v) : (k, v) ∈ s := by
  induction s with
  | nil => simp [dictGet] at h
  | cons p rest ih =>
    obtain ⟨k', v'⟩ := p
    by_cases hk : k' = k
    · simp [dictGet, hk] at h
      simp [hk, h]
    · simp [dictGet, hk] at h
      exact List.mem_cons_of_mem _ (ih h)

lemma dictGet_eq_none_of_not_mem {s : List (α × β)} {k : α}
    (h : k ∉ s.map Prod.fst) : dictGet s k = none := by
  induction s with
  | nil => rfl
  | cons p rest ih =>
    obtain ⟨k', v'⟩ := p
    simp only [List.map_cons, List.mem_cons] at h
    push_neg at h
    have hk : ¬ k' = k := fun hh => h.1 hh.symm
    simp [dictGet, hk, ih h.2]

lemma mem_dictSet {s : List (α × β)} {k : α} {v : β} {e : α × β}
    (h : e ∈ dictSet s k v) : e = (k, v) ∨ e ∈ s := by
  induction s with
  | nil => simpa [dictSet] using h
  | cons p rest ih =>
    obtain ⟨k', v'⟩ := p
    by_cases hk : k' = k
    · simp only [dictSet, if_pos hk, List.mem_cons] at h
      rcases h with h | h
      · exact Or.inl h
      · exact Or.inr (List.mem_cons_of_mem _ h)
    · simp only [dictSet, if_neg hk, List.mem_cons] at h
      rcases h with h | h
      · exact Or.inr (by simp [h])
      · rcases ih h with h | h
        · exact Or.inl h
        · exact Or.inr (List.mem_cons_of_mem _ h)

lemma mem_of_mem_dictRemove {s : List (α × β)} {k : α} {e : α × β}
    (h : e ∈ dictRemove s k) : e ∈ s := by
  induction s with
  | nil => simpa [dictRemove] using h
  | cons p rest ih =>
    obtain ⟨k', v'⟩ := p
    by_cases hk : k' = k
    · simp only [dictRemove, if_pos hk] at h
      exact List.mem_cons_of_mem _ h
    · simp only [dictRemove, if_neg hk, List.mem_cons] at h
      rcases h with h | h
      · simp [h]
      · exact List.mem_cons_of_mem _ (ih h)

lemma map_fst_dictRemove (s : List (α × β)) (k : α) :
    (dictRemove s k).map Prod.fst = (s.map Prod.fst).erase k := by
  induction s with
  | nil => rfl
  | cons p rest ih =>
    obtain ⟨k', v'⟩ := p
    by_cases hk : k' = k
    · simp [dictRemove, hk, List.erase_cons_head]
    · simp [dictRemove, hk, List.erase_cons_tail, ih]

lemma map_fst_dictSet (s : List (α × β)) (k : α) (v : β) :
    (dictSet s k v).map Prod.fst =
      if k ∈ s.map Prod.fst then s.map Prod.fst else s.map Prod.fst ++ [k] := by
  induction s with
  | nil => simp [dictSet]
  | cons p rest ih =>
    obtain ⟨k', v'⟩ := p
    by_cases hk : k' = k
    · simp [dictSet, hk]
    · have hk' : ¬ k = k' := fun hh => hk hh.symm
      by_cases hm : k ∈ rest.map Prod.fst
      · simp [dictSet, hk, hk', hm, ih]
      · simp [dictSet, hk, hk', hm, ih]

lemma nodupKeys_dictSet {s : List (α × β)} (h : NodupKeys s) (k : α) (v : β) :
    NodupKeys (dictSet s k v) := by
  unfold NodupKeys at h ⊢
  rw [map_fst_dictSet]
  by_cases hm : k ∈ s.map Prod.fst
  · simpa [hm] using h
  · rw [if_neg hm, List.nodup_append]
    refine ⟨h, List.nodup_singleton k, ?_⟩
    intro a ha hb
    rw [List.mem_singleton] at hb
    exact hm (hb ▸ ha)

lemma nodupKeys_filter {s : List (α × β)} (h : NodupKeys s) (p : α × β → Bool) :
    NodupKeys (s.filter p) := by
  unfold NodupKeys at h ⊢
  exact h.sublist ((List.filter_sublist s).map Prod.fst)

lemma nodupKeys_dictRemove {s : List (α × β)} (h : NodupKeys s) (k : α) :
    NodupKeys (dictRemove s k) := by
  unfold NodupKeys at h ⊢
  rw [map_fst_dictRemove]
  exact h.erase k

lemma not_mem_keys_dictRemove {s : List (α × β)} (h : NodupKeys s) (k : α) :
    k ∉ (dictRemove s k).map Prod.fst := by
  rw [map_fst_dictRemove]
  exact h.not_mem_erase

lemma dictGet_filter {s : List (α × β)} (h : NodupKeys s) (p : α × β → Bool) (k : α) :
    dictGet (s.filter p) k =
      (dictGet s k).bind (fun v => if p (k, v) then some v else none) := by
  induction s with
  | nil => rfl
  | cons e rest ih =>
    obtain ⟨k', v'⟩ := e
    unfold NodupKeys at h
    simp only [List.map_cons, List.nodup_cons] at h
    by_cases hk : k' = k
    · subst hk
      by_cases hp : p (k', v')
      · simp [List.filter_cons, hp, dictGet]
      · have hnm : dictGet (rest.filter p) k' = none := by
          apply dictGet_eq_none_of_not_mem
          intro hm
          rcases List.exists_of_mem_map hm with ⟨e, he, hfst⟩
          exact h.1 (hfst ▸ List.mem_map_of_mem Prod.fst (List.mem_of_mem_filter he))
        simp [List.filter_cons, hp, dictGet, hnm]
    · by_cases hp : p (k', v')
      · simp [List.filter_cons, hp, dictGet, hk, ih h.2]
      · simp [List.filter_cons, hp, dictGet, hk, ih h.2]

end Dict

lemma natToStrAux_irrel (n : Nat) :
    ∀ f g : Nat, n < f → n < g → natToStrAux f n = natToStrAux g n := by
  induction n using Nat.strong_induction_on with
  | _ n ih =>
    intro f g hf hg
    cases f with
    | zero => omega
    | succ f' =>
      cases g with
      | zero => omega
      | succ g' =>
        simp only [natToStrAux]
        by_cases h : n < 10
        · simp [h]
        · have hd : n / 10 < n := Nat.div_lt_self (by omega) (by omega)
          simp only [if_neg h]
          rw [ih (n / 10) hd f' g' (by omega) (by omega)]

lemma natToStr_eq (n : Nat) :
    natToStr n =
      if n < 10 then [digitChar n]
      else natToStr (n / 10) ++ [digitChar (n % 10)] := by
  show natToStrAux (n + 1) n = _
  simp only [natToStrAux]
  by_cases h : n < 10
  · simp [h]
  · have hd : n / 10 < n := Nat.div_lt_self (by omega) (by omega)
    simp only [if_neg h]
    rw [natToStrAux_irrel (n / 10) n (n / 10 + 1) hd (by omega)]
    rfl

lemma digitChar_ne_colon (n : Nat) : digitChar n ≠ ':' := by
  unfold digitChar
  split <;> decide

lemma digitChar_toNat (n : Nat) (h : n < 10) : (digitChar n).toNat = 48 + n := by
  interval_cases n <;> decide

lemma colon_not_mem_natToStr (n : Nat) : ':' ∉ natToStr n := by
  induction n using Nat.strong_induction_on with
  | _ n ih =>
    rw [natToStr_eq]
    by_cases h : n < 10
    · simp only [if_pos h, List.mem_singleton]
      exact fun hh => digitChar_ne_colon n hh.symm
    · have hd : n / 10 < n := Nat.div_lt_self (by omega) (by omega)
      simp only [if_neg h, List.mem_append, List.mem_singleton]
      push_neg
      exact ⟨ih (n / 10) hd, fun hh => digitChar_ne_colon (n % 10) hh.symm⟩

lemma strToNat_natToStr_aux (n : Nat) :
    ∀ acc : Nat,
      List.foldl (fun acc c => acc * 10 + (c.toNat - 48)) acc (natToStr n)
        = acc * 10 ^ (natToStr n).length + n := by
  induction n using Nat.strong_induction_on with
  | _ n ih =>
    intro acc
    rw [natToStr_eq]
    by_cases h : n < 10
    · simp only [if_pos h, List.foldl_cons, List.foldl_nil, List.length_singleton,
        pow_one, digitChar_toNat n h]
      omega
    · have hd : n / 10 < n := Nat.div_lt_self (by omega) (by omega)
      have hm : n % 10 < 10 := Nat.mod_lt n (by omega)
      simp only [if_neg h]
      rw [List.foldl_append, ih (n / 10) hd acc]
      simp only [List.foldl_cons, List.foldl_nil, List.length_append,
        List.length_singleton, digitChar_toNat (n % 10) hm]
      have h48 : 48 + n % 10 - 48 = n % 10 := by omega
      rw [h48, pow_succ]
      have h10 : 10 * (n / 10) + n % 10 = n := Nat.div_add_mod n 10
      calc (acc * 10 ^ (natToStr (n / 10)).length + n / 10) * 10 + n % 10
          = acc * (10 ^ (natToStr (n / 10)).length * 10)
              + (10 * (n / 10) + n % 10) := by ring
        _ = acc * (10 ^ (natToStr (n / 10)).length * 10) + n := by rw [h10]

lemma strToNat_natToStr (n : Nat) : strToNat (natToStr n) = n := by
  unfold strToNat
  rw [strToNat_natToStr_aux n 0]
  simp

lemma natToStr_injective {m n : Nat} (h : natToStr m = natToStr n) : m = n := by
  have hm := strToNat_natToStr m
  rw [h, strToNat_natToStr n] at hm
  omega

lemma pyPartitionFst_append (a b : List Char) (h : ':' ∉ a) :
    pyPartitionFst (a ++ ':' :: b) = a := by
  induction a with
  | nil => simp [pyPartitionFst]
  | cons c rest ih =>
    have hc : ¬ c = ':' := fun hh => h (by simp [hh])
    have hr : ':' ∉ rest := fun hm => h (List.mem_cons_of_mem _ hm)
    simp [pyPartitionFst, hc, ih hr]

lemma pyPartitionFst_of_no_colon (k : List Char) (h : ':' ∉ k) :
    pyPartitionFst k = k := by
  induction k with
  | nil => rfl
  | cons c rest ih =>
    have hc : ¬ c = ':' := fun hh => h (by simp [hh])
    have hr : ':' ∉ rest := fun hm => h (List.mem_cons_of_mem _ hm)
    simp [pyPartitionFst, hc, ih hr]

/-- Embedding of the `UserDetail` named tuple (application.py lines 36-41).
Python strings are `List Char`; `user_id` is the non-negative OS user id. -/
structure UserDetail where
  user_id : Nat
  user_name : List Char
  full_name : List Char
  is_admin : Bool
deriving DecidableEq

/-- Embedding of the `LoginToken` named tuple (application.py lines 62-72):
a user detail, a key string, and a monotonic expiry instant. -/
structure LoginToken where
  user : UserDetail
  key : List Char
  expires : Nat
deriving DecidableEq

/-- Embedding of `LoginToken.is_expired` (line 71-72): the token is expired
when its expiry instant is strictly below the current monotonic time. -/
def LoginToken.is_expired (tok : LoginToken) (now : Nat) : Bool :=
  decide (tok.expires < now)

/-- Embedding of `LoginTokenManager.TOKEN_EXPIRE_TIME` (line 354). -/
def TOKEN_EXPIRE_TIME : Nat := 60

/-- The `LoginTokenManager.__login_tokens` dict: user-id string to token. -/
abbrev TokenStore : Type := List (List Char × LoginToken)

/-- Embedding of `LoginTokenManager.__generate_token_key` (lines 379-380):
the user id string joined to the random uuid suffix by a single colon. -/
def generate_token_key (user_id uuid : List Char) : List Char :=
  user_id ++ ':' :: uuid

/-- Embedding of `LoginTokenManager.__revoke_expired_tokens` (lines 391-396):
keep exactly the bindings whose token is not expired at the current time. -/
def revoke_expired_tokens (s : TokenStore) (now : Nat) : TokenStore :=
  s.filter (fun p => !(p.2.is_expired now))

/-- Embedding of `LoginTokenManager.__add_login_token` (lines 368-377); the
uuid suffix and the monotonic clock reading are explicit parameters, and the
TTL parameter stands for the `TOKEN_EXPIRE_TIME` class attribute. -/
def add_login_token (s : TokenStore) (u : UserDetail) (uuid : List Char)
    (now ttl : Nat) : LoginToken × TokenStore :=
  let user_id := natToStr u.user_id
  let token_key := generate_token_key user_id uuid
  let login_token : LoginToken := ⟨u, token_key, now + ttl⟩
  (login_token, dictSet s user_id login_token)

/-- Embedding of `LoginTokenManager.generate_for_user` (lines 360-362). -/
def generate_for_user (s : TokenStore) (u : UserDetail) (uuid : List Char)
    (now ttl : Nat) : LoginToken × TokenStore :=
  add_login_token (revoke_expired_tokens s now) u uuid now ttl

/-- Embedding of `LoginTokenManager.__pop_login_token` (lines 382-389):
look up by the part of the key before the first colon, and return and delete
the stored token only when its full key equals the supplied key. -/
def pop_token_inner (s : TokenStore) (token_key : List Char) :
    Option LoginToken × TokenStore :=
  let user_id := pyPartitionFst token_key
  match dictGet s user_id with
  | some login_token =>
    if login_token.key = token_key then (some login_token, dictRemove s user_id)
    else (none, s)
  | none => (none, s)

/-- Embedding of `LoginTokenManager.pop_login_token` (lines 364-366). -/
def pop_login_token (s : TokenStore) (token_key : List Char) (now : Nat) :
    Option LoginToken × TokenStore :=
  pop_token_inner (revoke_expired_tokens s now) token_key

/-- One externally triggered operation on the login token store: token
issuance (with its uuid draw and clock reading) or a redemption attempt. -/
inductive TokenOp where
  | gen (u : UserDetail) (uuid : List Char) (now : Nat)
  | pop (key : List Char) (now : Nat)

/-- Effect of one operation on the store; issuance uses the fixed
`TOKEN_EXPIRE_TIME` TTL exactly as `generate_for_user` does. -/
def applyTokenOp (s : TokenStore) : TokenOp → TokenStore
  | TokenOp.gen u uuid now => (generate_for_user s u uuid now TOKEN_EXPIRE_TIME).2
  | TokenOp.pop key now => (pop_login_token s key now).2

/-- Effect of a sequence of operations on the store. -/
def applyTokenOps (s : TokenStore) (ops : List TokenOp) : TokenStore :=
  ops.foldl applyTokenOp s

/-- True unless the operation issues a token for the given user id; used to
say a trace contains no `GenerateForUser` for that user. -/
def genAvoids : TokenOp → Nat → Bool
  | TokenOp.gen u _ _, i => decide (u.user_id ≠ i)
  | TokenOp.pop _ _, _ => true

/-- No binding in the store sits at slot `uid` while carrying key `k`. -/
def slotFree (uid k : List Char) (s : TokenStore) : Prop :=
  ∀ p ∈ s, p.1 = uid → p.2.key ≠ k

lemma nodupKeys_revoke {s : TokenStore} (h : NodupKeys s) (now : Nat) :
    NodupKeys (revoke_expired_tokens s now) :=
  nodupKeys_filter h _

lemma nodupKeys_gen_store {s : TokenStore} (h : NodupKeys s) (u : UserDetail)
    (uuid : List Char) (now ttl : Nat) :
    NodupKeys (generate_for_user s u uuid now ttl).2 :=
  nodupKeys_dictSet (nodupKeys_revoke h now) _ _

lemma nodupKeys_pop_store {s : TokenStore} (h : NodupKeys s) (k : List Char)
    (now : Nat) : NodupKeys (pop_login_token s k now).2 := by
  have h1 := nodupKeys_revoke h now
  simp only [pop_login_token, pop_token_inner]
  cases hget : dictGet (revoke_expired_tokens s now) (pyPartitionFst k) with
  | none => simpa [hget] using h1
  | some tok =>
    by_cases hk : tok.key = k
    · simpa [hget, hk] using nodupKeys_dictRemove h1 (pyPartitionFst k)
    · simpa [hget, hk] using h1

lemma nodupKeys_applyTokenOp {s : TokenStore} (h : NodupKeys s) (op : TokenOp) :
    NodupKeys (applyTokenOp s op) := by
  cases op with
  | gen u uuid now => exact nodupKeys_gen_store h u uuid now TOKEN_EXPIRE_TIME
  | pop key now => exact nodupKeys_pop_store h key now

lemma nodupKeys_applyTokenOps {s : TokenStore} (h : NodupKeys s)
    (ops : List TokenOp) : NodupKeys (applyTokenOps s ops) := by
  induction ops generalizing s with
  | nil => exact h
  | cons op rest ih => exact ih (nodupKeys_applyTokenOp h op)

lemma slotFree_of_subset {uid k : List Char} {s t : TokenStore}
    (hsub : ∀ p, p ∈ t → p ∈ s) (h : slotFree uid k s) : slotFree uid k t :=
  fun p hp => h p (hsub p hp)

lemma slotFree_revoke {uid k : List Char} {s : TokenStore}
    (h : slotFree uid k s) (now : Nat) :
    slotFree uid k (revoke_expired_tokens s now) :=
  slotFree_of_subset (fun _ hp => List.mem_of_mem_filter hp) h

lemma slotFree_dictRemove {uid k : List Char} {s : TokenStore}
    (h : slotFree uid k s) (uid' : List Char) :
    slotFree uid k (dictRemove s uid') :=
  slotFree_of_subset (fun _ hp => mem_of_mem_dictRemove hp) h

lemma slotFree_dictSet {uid k : List Char} {s : TokenStore}
    (h : slotFree uid k s) {uid' : List Char} (hne : uid' ≠ uid)
    (tok : LoginToken) : slotFree uid k (dictSet s uid' tok) := by
  intro p hp h1
  rcases mem_dictSet hp with he | hm
  · subst he
    exact absurd h1 hne
  · exact h p hm h1

lemma mem_of_mem_pop_store {s : TokenStore} {k : List Char} {now : Nat}
    {p : List Char × LoginToken}
    (hp : p ∈ (pop_login_token s k now).2) : p ∈ s := by
  simp only [pop_login_token, pop_token_inner] at hp
  split at hp
  · split at hp
    · exact List.mem_of_mem_filter (mem_of_mem_dictRemove hp)
    · exact List.mem_of_mem_filter hp
  · exact List.mem_of_mem_filter hp

lemma slotFree_applyTokenOps {uid k : List Char} (ops : List TokenOp)
    {s : TokenStore} (h : slotFree uid k s)
    (hops : ∀ op ∈ ops, ∀ u uuid t, op = TokenOp.gen u uuid t →
      natToStr u.user_id ≠ uid) :
    slotFree uid k (applyTokenOps s ops) := by
  induction ops generalizing s with
  | nil => exact h
  | cons op rest ih =>
    refine ih ?_ (fun o ho => hops o (List.mem_cons_of_mem _ ho))
    cases op with
    | gen u uuid t =>
      have hne : natToStr u.user_id ≠ uid :=
        hops _ (List.mem_cons_self _ _) u uuid t rfl
      exact slotFree_dictSet (slotFree_revoke h t) hne _
    | pop key t =>
      exact slotFree_of_subset (fun _ hp => mem_of_mem_pop_store hp) h

lemma pop_fst_eq_none_of_slotFree {s : TokenStore} {k : List Char} {now : Nat}
    (h : slotFree (pyPartitionFst k) k s) :
    (pop_login_token s k now).1 = none := by
  have h1 : slotFree (pyPartitionFst k) k (revoke_expired_tokens s now) :=
    slotFree_revoke h now
  simp only [pop_login_token, pop_token_inner]
  cases hget : dictGet (revoke_expired_tokens s now) (pyPartitionFst k) with
  | none => simp [hget]
  | some tok =>
    have hne : tok.key ≠ k := h1 (pyPartitionFst k, tok) (dictGet_mem hget) rfl
    simp [hget, hne]

lemma generate_token_key_ne {uid a b : List Char} (h : a ≠ b) :
    generate_token_key uid a ≠ generate_token_key uid b := by
  intro hc
  unfold generate_token_key at hc
  have hcons := List.append_cancel_left hc
  simp only [List.cons.injEq, true_and] at hcons
  exact h hcons

lemma pop_gen_other_uuid {s : TokenStore} (h : NodupKeys s) (u : UserDetail)
    {uuid1 uuid2 : List Char} (hne : uuid1 ≠ uuid2) (t2 t3 ttl : Nat) :
    (pop_login_token (generate_for_user s u uuid2 t2 ttl).2
      (generate_token_key (natToStr u.user_id) uuid1) t3).1 = none := by
  have hpart : pyPartitionFst (generate_token_key (natToStr u.user_id) uuid1)
      = natToStr u.user_id :=
    pyPartitionFst_append _ _ (colon_not_mem_natToStr u.user_id)
  have hstore : (generate_for_user s u uuid2 t2 ttl).2
      = dictSet (revoke_expired_tokens s t2) (natToStr u.user_id)
          ⟨u, generate_token_key (natToStr u.user_id) uuid2, t2 + ttl⟩ := rfl
  have hkne : (LoginToken.mk u (generate_token_key (natToStr u.user_id) uuid2)
        (t2 + ttl)).key ≠ generate_token_key (natToStr u.user_id) uuid1 :=
    generate_token_key_ne (Ne.symm hne)
  simp only [pop_login_token, pop_token_inner, hstore, hpart]
  rw [show revoke_expired_tokens
        (dictSet (revoke_expired_tokens s t2) (natToStr u.user_id)
          ⟨u, generate_token_key (natToStr u.user_id) uuid2, t2 + ttl⟩) t3
      = (dictSet (revoke_expired_tokens s t2) (natToStr u.user_id)
          ⟨u, generate_token_key (natToStr u.user_id) uuid2, t2 + ttl⟩).filter
          (fun p => !(p.2.is_expired t3)) from rfl]
  rw [dictGet_filter (nodupKeys_dictSet (nodupKeys_revoke h t2) _ _)]
  rw [dictGet_dictSet_self]
  by_cases hexp : (LoginToken.mk u (generate_token_key (natToStr u.user_id) uuid2)
      (t2 + ttl)).is_expired t3
  · simp [hexp]
  · simp [hexp, hkne]

/-- Claim C3: the login-token store holds at most one live token per user.
After `GenerateForUser(u)` is called a second time (with a distinct uuid
draw), the key of the first token is no longer redeemable: `PopToken` of the
first key returns absent, whatever sequence of store operations happened
between the two calls, and this holds for every user and any pop time. -/
theorem c3_one_live_token_per_user (s0 : TokenStore) (u : UserDetail)
    (uuid1 uuid2 : List Char) (t1 t2 t3 : Nat) (ops : List TokenOp)
    (hnodup : NodupKeys s0) (hfresh : uuid1 ≠ uuid2) :
    (pop_login_token
        (generate_for_user
          (applyTokenOps (generate_for_user s0 u uuid1 t1 TOKEN_EXPIRE_TIME).2 ops)
          u uuid2 t2 TOKEN_EXPIRE_TIME).2
        (generate_for_user s0 u uuid1 t1 TOKEN_EXPIRE_TIME).1.key t3).1 = none := by
  have h1 : NodupKeys (generate_for_user s0 u uuid1 t1 TOKEN_EXPIRE_TIME).2 :=
    nodupKeys_gen_store hnodup u uuid1 t1 TOKEN_EXPIRE_TIME
  have h2 : NodupKeys
      (applyTokenOps (generate_for_user s0 u uuid1 t1 TOKEN_EXPIRE_TIME).2 ops) :=
    nodupKeys_applyTokenOps h1 ops
  have hk1 : (generate_for_user s0 u uuid1 t1 TOKEN_EXPIRE_TIME).1.key
      = generate_token_key (natToStr u.user_id) uuid1 := rfl
  rw [hk1]
  exact pop_gen_other_uuid h2 u hfresh t2 t3 TOKEN_EXPIRE_TIME

/-- Claim C4: login tokens are single-use. For a stored, unexpired token
whose key is `k` (stored at the slot named by the user-id part of `k`), the
first `PopToken(k)` returns that token and removes it from the store, and a
second `PopToken(k)` after any further operations that contain no
`GenerateForUser` for that user returns absent. -/
theorem c4_token_single_use (s : TokenStore) (k : List Char) (tok : LoginToken)
    (t1 t2 : Nat) (ops : List TokenOp)
    (hnodup : NodupKeys s)
    (hget : dictGet s (pyPartitionFst k) = some tok)
    (hkey : tok.key = k)
    (huid : pyPartitionFst k = natToStr tok.user.user_id)
    (hlive : tok.is_expired t1 = false)
    (hops : ∀ op ∈ ops, genAvoids op tok.user.user_id = true) :
    pop_login_token s k t1
        = (some tok, dictRemove (revoke_expired_tokens s t1) (pyPartitionFst k)) ∧
    (pop_login_token (applyTokenOps (pop_login_token s k t1).2 ops) k t2).1
        = none := by
  have hgetf : dictGet (revoke_expired_tokens s t1) (pyPartitionFst k)
      = some tok := by
    rw [show revoke_expired_tokens s t1
        = s.filter (fun p => !(p.2.is_expired t1)) from rfl]
    rw [dictGet_filter hnodup]
    simp [hget, hlive]
  have hfirst : pop_login_token s k t1
      = (some tok, dictRemove (revoke_expired_tokens s t1) (pyPartitionFst k)) := by
    simp [pop_login_token, pop_token_inner, hgetf, hkey]
  refine ⟨hfirst, ?_⟩
  have hsf : slotFree (pyPartitionFst k) k (pop_login_token s k t1).2 := by
    rw [hfirst]
    intro p hp hp1
    have hp' : p ∈ dictRemove (revoke_expired_tokens s t1) (pyPartitionFst k) := hp
    have hmem : p.1 ∈
        (dictRemove (revoke_expired_tokens s t1) (pyPartitionFst k)).map Prod.fst :=
      List.mem_map_of_mem Prod.fst hp'
    rw [hp1] at hmem
    exact absurd hmem
      (not_mem_keys_dictRemove (nodupKeys_revoke hnodup t1) (pyPartitionFst k))
  have hops' : ∀ op ∈ ops, ∀ u uuid t, op = TokenOp.gen u uuid t →
      natToStr u.user_id ≠ pyPartitionFst k := by
    intro op hop u' uuid t heq
    subst heq
    have hav := hops _ hop
    simp only [genAvoids, decide_eq_true_eq] at hav
    rw [huid]
    exact fun hc => hav (natToStr_injective hc)
  exact pop_fst_eq_none_of_slotFree
    (slotFree_applyTokenOps ops hsf hops')

/-- Claim C5: `PopToken` returns and deletes a token only on an exact full
key match. For every supplied key whose user-id part names a stored (and
surviving) token whose full key differs, the call returns absent and, apart
from the initial purge of expired tokens, leaves the store unchanged. -/
theorem c5_exact_key_required (s : TokenStore) (k : List Char) (now : Nat)
    (tok : LoginToken)
    (hget : dictGet (revoke_expired_tokens s now) (pyPartitionFst k) = some tok)
    (hne : tok.key ≠ k) :
    pop_login_token s k now = (none, revoke_expired_tokens s now) := by
  simp [pop_login_token, pop_token_inner, hget, hne]

/-- Every stored token key contains the colon separator; true of every
store the daemon can build, since `__generate_token_key` always joins the
user id and the uuid with a colon. -/
abbrev allKeysHaveSep (s : TokenStore) : Prop := ∀ p ∈ s, ':' ∈ p.2.key

/-- Claim C10 (implicit): `PopToken`/`CheckLoginToken` is total over
arbitrary key strings. For the empty string, any key with no colon
separator, and any key whose user-id part names no stored token, the
operation returns absent, and apart from the purge of expired tokens the
store is unchanged: every unexpired stored token survives the call. (The
operation is a total function by construction, so no exception is
modelled.) -/
theorem c10_pop_total_on_garbage (s : TokenStore) (k : List Char) (now : Nat)
    (hwf : allKeysHaveSep s)
    (hk : ':' ∉ k ∨
      dictGet (revoke_expired_tokens s now) (pyPartitionFst k) = none) :
    (pop_login_token s k now).1 = none ∧
    (pop_login_token s k now).2 = revoke_expired_tokens s now ∧
    (∀ p ∈ s, p.2.is_expired now = false → p ∈ (pop_login_token s k now).2) := by
  have hmain : pop_login_token s k now = (none, revoke_expired_tokens s now) := by
    rcases hk with hnc | hnone
    · cases hget : dictGet (revoke_expired_tokens s now) (pyPartitionFst k) with
      | none => simp [pop_login_token, pop_token_inner, hget]
      | some tok =>
        have htok : ':' ∈ tok.key :=
          hwf _ (List.mem_of_mem_filter (dictGet_mem hget))
        have hne : tok.key ≠ k := fun hh => hnc (hh ▸ htok)
        simp [pop_login_token, pop_token_inner, hget, hne]
    · simp [pop_login_token, pop_token_inner, hnone]
  refine ⟨by rw [hmain], by rw [hmain], ?_⟩
  intro p hp hexp
  rw [hmain]
  exact List.mem_filter.mpr ⟨hp, by simp [hexp]⟩

/-- Claim C6 as stated is false on the code: the expiry test is strict
(`expires < now`), so a token generated at time 0 with TTL 60 is still
returned by `PopToken` at elapsed time exactly 60, where the claim says it
must be absent at any time greater than or equal to the TTL. -/
theorem c6_counterexample :
    (pop_login_token
        (generate_for_user [] (UserDetail.mk 1000 [] [] true) ['a'] 0 60).2
        (generate_for_user [] (UserDetail.mk 1000 [] [] true) ['a'] 0 60).1.key
        60).1 =
      some (generate_for_user [] (UserDetail.mk 1000 [] [] true) ['a'] 0 60).1 := by
  decide

/-- Claim C6, amended to the boundary the code implements: a token
generated at monotonic time `t` with TTL `ttl` is returned by `PopToken`
with its key at every elapsed time `e ≤ ttl`, and is absent at every
elapsed time `e > ttl` (expiry is strict: the token is still live at the
instant `t + ttl` itself). -/
theorem c6_token_expiry_amended (s : TokenStore) (u : UserDetail)
    (uuid : List Char) (t ttl e : Nat) (hnodup : NodupKeys s) :
    (e ≤ ttl →
      (pop_login_token (generate_for_user s u uuid t ttl).2
        (generate_for_user s u uuid t ttl).1.key (t + e)).1
        = some (generate_for_user s u uuid t ttl).1) ∧
    (ttl < e →
      (pop_login_token (generate_for_user s u uuid t ttl).2
        (generate_for_user s u uuid t ttl).1.key (t + e)).1 = none) := by
  have hpart : pyPartitionFst (generate_token_key (natToStr u.user_id) uuid)
      = natToStr u.user_id :=
    pyPartitionFst_append _ _ (colon_not_mem_natToStr u.user_id)
  have hstore : (generate_for_user s u uuid t ttl).2
      = dictSet (revoke_expired_tokens s t) (natToStr u.user_id)
          ⟨u, generate_token_key (natToStr u.user_id) uuid, t + ttl⟩ := rfl
  have hkey : (generate_for_user s u uuid t ttl).1.key
      = generate_token_key (natToStr u.user_id) uuid := rfl
  constructor
  · intro he
    have hexp : (LoginToken.mk u (generate_token_key (natToStr u.user_id) uuid)
        (t + ttl)).is_expired (t + e) = false := by
      simp [LoginToken.is_expired]
      omega
    simp only [hstore, hkey, pop_login_token, pop_token_inner, hpart]
    rw [show revoke_expired_tokens
          (dictSet (revoke_expired_tokens s t) (natToStr u.user_id)
            ⟨u, generate_token_key (natToStr u.user_id) uuid, t + ttl⟩) (t + e)
        = (dictSet (revoke_expired_tokens s t) (natToStr u.user_id)
            ⟨u, generate_token_key (natToStr u.user_id) uuid, t + ttl⟩).filter
            (fun p => !(p.2.is_expired (t + e))) from rfl]
    rw [dictGet_filter (nodupKeys_dictSet (nodupKeys_revoke hnodup t) _ _)]
    rw [dictGet_dictSet_self]
    simp [hexp]
    rfl
  · intro he
    have hexp : (LoginToken.mk u (generate_token_key (natToStr u.user_id) uuid)
        (t + ttl)).is_expired (t + e) = true := by
      simp [LoginToken.is_expired]
      omega
    simp only [hstore, hkey, pop_login_token, pop_token_inner, hpart]
    rw [show revoke_expired_tokens
          (dictSet (revoke_expired_tokens s t) (natToStr u.user_id)
            ⟨u, generate_token_key (natToStr u.user_id) uuid, t + ttl⟩) (t + e)
        = (dictSet (revoke_expired_tokens s t) (natToStr u.user_id)
            ⟨u, generate_token_key (natToStr u.user_id) uuid, t + ttl⟩).filter
            (fun p => !(p.2.is_expired (t + e))) from rfl]
    rw [dictGet_filter (nodupKeys_dictSet (nodupKeys_revoke hnodup t) _ _)]
    rw [dictGet_dictSet_self]
    simp [hexp]

/-- Concrete local user used by the witnesses. -/
def sampleUser : UserDetail := ⟨1000, [], [], true⟩

/-- Concrete second user used by the witnesses. -/
def sampleUser2 : UserDetail := ⟨7, [], [], false⟩

/-- Concrete stored token used by the witnesses. -/
def sampleTok : LoginToken :=
  ⟨sampleUser, generate_token_key (natToStr 1000) ['a'], 100⟩

/-- Concrete one-token store used by the witnesses. -/
def sampleStore : TokenStore := [(natToStr 1000, sampleTok)]

theorem c3_witness :
    (pop_login_token
        (generate_for_user
          (applyTokenOps
            (generate_for_user [] sampleUser ['a'] 0 TOKEN_EXPIRE_TIME).2
            [TokenOp.pop ['x'] 5])
          sampleUser ['b'] 10 TOKEN_EXPIRE_TIME).2
        (generate_for_user [] sampleUser ['a'] 0 TOKEN_EXPIRE_TIME).1.key 20).1
      = none :=
  c3_one_live_token_per_user [] sampleUser ['a'] ['b'] 0 10 20
    [TokenOp.pop ['x'] 5] (by decide) (by decide)

theorem c4_witness :
    pop_login_token sampleStore sampleTok.key 0
        = (some sampleTok,
          dictRemove (revoke_expired_tokens sampleStore 0)
            (pyPartitionFst sampleTok.key)) ∧
    (pop_login_token
        (applyTokenOps (pop_login_token sampleStore sampleTok.key 0).2
          [TokenOp.gen sampleUser2 ['c'] 0])
        sampleTok.key 0).1 = none :=
  c4_token_single_use sampleStore sampleTok.key sampleTok 0 0
    [TokenOp.gen sampleUser2 ['c'] 0] (by decide) (by decide) rfl (by decide)
    (by decide) (by decide)

theorem c5_witness :
    pop_login_token sampleStore (generate_token_key (natToStr 1000) ['b']) 0
      = (none, revoke_expired_tokens sampleStore 0) :=
  c5_exact_key_required sampleStore (generate_token_key (natToStr 1000) ['b']) 0
    sampleTok (by decide) (by decide)

theorem c6_witness :
    ((pop_login_token (generate_for_user [] sampleUser ['a'] 0 60).2
        (generate_for_user [] sampleUser ['a'] 0 60).1.key (0 + 10)).1
      = some (generate_for_user [] sampleUser ['a'] 0 60).1) ∧
    ((pop_login_token (generate_for_user [] sampleUser ['a'] 0 60).2
        (generate_for_user [] sampleUser ['a'] 0 60).1.key (0 + 61)).1 = none) :=
  ⟨(c6_token_expiry_amended [] sampleUser ['a'] 0 60 10 (by decide)).1 (by decide),
   (c6_token_expiry_amended [] sampleUser ['a'] 0 60 61 (by decide)).2 (by decide)⟩

theorem c10_witness :
    (pop_login_token sampleStore [] 0).1 = none ∧
    (pop_login_token sampleStore [] 0).2 = revoke_expired_tokens sampleStore 0 ∧
    (∀ p ∈ sampleStore, p.2.is_expired 0 = false →
      p ∈ (pop_login_token sampleStore [] 0).2) :=
  c10_pop_total_on_garbage sampleStore [] 0 (by decide) (Or.inl (by decide))

/-- Embedding of the `Application` hold-token state (application.py lines
449 and 465-473): the `__hold_tokens` set, plus counters of the `hold()`
and `release()` calls the application has issued to the GApplication
machinery. Tokens are opaque owner identities, modelled as naturals. -/
structure AppHoldState where
  hold_tokens : Finset Nat
  gio_holds : Nat
  gio_releases : Nat
deriving DecidableEq

/-- Embedding of `Application.hold_with_token` (lines 465-468): a net-new
token issues one `hold()` and joins the set; a present token is a no-op. -/
def hold_with_token (st : AppHoldState) (token : Nat) : AppHoldState :=
  if token ∈ st.hold_tokens then st
  else { st with gio_holds := st.gio_holds + 1,
                 hold_tokens := insert token st.hold_tokens }

/-- Embedding of `Application.release_with_token` (lines 470-473): a
present token leaves the set and one `release()` is issued; an absent token
is a no-op. -/
def release_with_token (st : AppHoldState) (token : Nat) : AppHoldState :=
  if token ∈ st.hold_tokens then
    { st with hold_tokens := st.hold_tokens.erase token,
              gio_releases := st.gio_releases + 1 }
  else st

/-- One process-level hold operation: assert or retract a hold token. -/
inductive HoldOp where
  | assert_token (t : Nat)
  | retract_token (t : Nat)

/-- Effect of one hold operation on the application state. -/
def applyHoldOp (st : AppHoldState) : HoldOp → AppHoldState
  | HoldOp.assert_token t => hold_with_token st t
  | HoldOp.retract_token t => release_with_token st t

/-- Effect of a sequence of hold operations. -/
def applyHoldOps (st : AppHoldState) (ops : List HoldOp) : AppHoldState :=
  ops.foldl applyHoldOp st

/-- The application starts with no hold tokens and no holds issued. -/
def initAppHold : AppHoldState := ⟨∅, 0, 0⟩

lemma holdInv_step (st : AppHoldState)
    (h : st.gio_holds = st.gio_releases + st.hold_tokens.card) (op : HoldOp) :
    (applyHoldOp st op).gio_holds
      = (applyHoldOp st op).gio_releases
          + (applyHoldOp st op).hold_tokens.card := by
  cases op with
  | assert_token t =>
    by_cases hm : t ∈ st.hold_tokens
    · simpa [applyHoldOp, hold_with_token, hm] using h
    · simp [applyHoldOp, hold_with_token, hm, Finset.card_insert_of_not_mem hm]
      omega
  | retract_token t =>
    by_cases hm : t ∈ st.hold_tokens
    · have hc : 1 ≤ st.hold_tokens.card := Finset.card_pos.mpr ⟨t, hm⟩
      simp [applyHoldOp, release_with_token, hm, Finset.card_erase_of_mem hm]
      omega
    · simpa [applyHoldOp, release_with_token, hm] using h

lemma holdInv_run (ops : List HoldOp) (st : AppHoldState)
    (h : st.gio_holds = st.gio_releases + st.hold_tokens.card) :
    (applyHoldOps st ops).gio_holds
      = (applyHoldOps st ops).gio_releases
          + (applyHoldOps st ops).hold_tokens.card := by
  induction ops generalizing st with
  | nil => exact h
  | cons op rest ih => exact ih _ (holdInv_step st h op)

/-- Claim C8: for every sequence of assert/retract operations on the daemon
process hold counter, the number of `hold()` calls minus `release()` calls
(stated additively: holds equal releases plus set size) equals the number
of tokens currently in the set; and asserting an already-present token or
retracting an absent token leaves both the set and the counters unchanged. -/
theorem c8_process_hold_counter :
    (∀ ops : List HoldOp,
      (applyHoldOps initAppHold ops).gio_holds
        = (applyHoldOps initAppHold ops).gio_releases
            + (applyHoldOps initAppHold ops).hold_tokens.card) ∧
    (∀ (st : AppHoldState) (t : Nat), t ∈ st.hold_tokens →
      hold_with_token st t = st) ∧
    (∀ (st : AppHoldState) (t : Nat), t ∉ st.hold_tokens →
      release_with_token st t = st) := by
  refine ⟨?_, ?_, ?_⟩
  · intro ops
    exact holdInv_run ops initAppHold (by simp [initAppHold])
  · intro st t hm
    simp [hold_with_token, hm]
  · intro st t hm
    simp [release_with_token, hm]

theorem c8_witness :
    hold_with_token ⟨{3}, 1, 0⟩ 3 = ⟨{3}, 1, 0⟩ ∧
    release_with_token ⟨{3}, 1, 0⟩ 4 = ⟨{3}, 1, 0⟩ :=
  ⟨c8_process_hold_counter.2.1 ⟨{3}, 1, 0⟩ 3 (by decide),
   c8_process_hold_counter.2.2 ⟨{3}, 1, 0⟩ 4 (by decide)⟩

/-- The abstract ServiceManager capability consumed by the controller.
Modelled from the spec: the `KolibriServiceManager` class lives in
`kolibri_service.py`, which is not under src/; the spec (sections 2, 5, 6)
specifies the operations the controller consumes: `cleanup` housekeeping,
an `is_running` observation, and `stop` (called `stop_kolibri` in the
source). -/
structure ServiceManagerAPI (SM : Type) where
  cleanup : SM → SM
  is_running : SM → Bool
  stop_kolibri : SM → SM

/-- Modelled from the spec: the conceptual session run-state enum of the
managed service (spec section 3, "Session run-state"). -/
inductive SessionRunState where
  | Stopped
  | Starting
  | Running
  | StopPending
  | Stopping
deriving DecidableEq

/-- Modelled from the spec: a concrete ServiceManager state
(`kolibri_service.py` is not under src/). It carries the run state plus an
instrumentation counter of how many times `stop_kolibri` was invoked, which
is what the call-count claims are stated against. -/
structure KolibriServiceManager where
  run_state : SessionRunState
  stop_calls : Nat
deriving DecidableEq

/-- Modelled from the spec: the service "is running" in every state other
than `Stopped`, including mid-start and mid-stop (spec section 4.3 step 3). -/
def KolibriServiceManager.is_running (sm : KolibriServiceManager) : Bool :=
  match sm.run_state with
  | SessionRunState.Stopped => false
  | _ => true

/-- Modelled from the spec: `Stop()` requests the service stop and is
counted by the instrumentation counter (spec section 4.3). -/
def KolibriServiceManager.stop_kolibri (sm : KolibriServiceManager) :
    KolibriServiceManager :=
  ⟨SessionRunState.Stopping, sm.stop_calls + 1⟩

/-- Modelled from the spec: `cleanup` is an external housekeeping hook with
no specified effect on the observable state (spec section 4.3 step 1). -/
def KolibriServiceManager.cleanup (sm : KolibriServiceManager) :
    KolibriServiceManager := sm

/-- The spec-modelled ServiceManager packaged as the abstract capability. -/
def ksmApi : ServiceManagerAPI KolibriServiceManager :=
  ⟨KolibriServiceManager.cleanup, KolibriServiceManager.is_running,
   KolibriServiceManager.stop_kolibri⟩

/-- Embedding of the `PublicDBusInterface` state the claims touch
(application.py lines 98-108): the service manager, the `__hold_clients`
dict from client bus name to watch id, the `__stop_kolibri_timeout_source`
handle, the configured stop interval, and the application hold state it
drives. Fresh GLib watch and source ids come from counters. -/
structure ControllerState (SM : Type) where
  service : SM
  hold_clients : List (String × Nat)
  next_watch_id : Nat
  stop_kolibri_timeout_source : Option Nat
  next_source_id : Nat
  stop_kolibri_timeout_interval : Nat
  app : AppHoldState

/-- Embedding of the `clients_count` property (lines 110-112). -/
def ControllerState.clients_count {SM : Type} (st : ControllerState SM) : Nat :=
  st.hold_clients.length

/-- The hold token `PublicDBusInterface` passes to the application is the
interface object itself (`self`, lines 296-298); one fixed opaque value. -/
def ctlToken : Nat := 0

/-- Embedding of `PublicDBusInterface.__hold_for_client` (lines 145-156):
a no-op when the name is already held, otherwise registers a fresh
disconnect watch and stores it under the name. -/
def hold_for_client {SM : Type} (st : ControllerState SM) (name : String) :
    ControllerState SM :=
  if (dictGet st.hold_clients name).isSome then st
  else
    { st with
      hold_clients := dictSet st.hold_clients name st.next_watch_id,
      next_watch_id := st.next_watch_id + 1 }

/-- Embedding of `PublicDBusInterface.__release_for_client` (lines
158-164): pops the name if held (cancelling its watch), else does nothing
(the `KeyError` is swallowed). -/
def release_for_client {SM : Type} (st : ControllerState SM) (name : String) :
    ControllerState SM :=
  match dictGet st.hold_clients name with
  | some _ => { st with hold_clients := dictRemove st.hold_clients name }
  | none => st

/-- Embedding of `PublicDBusInterface.__on_hold_client_vanished` (lines
166-167): identical to an explicit release. -/
def on_hold_client_vanished {SM : Type} (st : ControllerState SM)
    (name : String) : ControllerState SM :=
  release_for_client st name

/-- Embedding of `PublicDBusInterface.__begin_stop_kolibri_timeout` (lines
302-307): arm the single-shot stop timer if not already armed. -/
def begin_stop_kolibri_timeout {SM : Type} (st : ControllerState SM) :
    ControllerState SM :=
  match st.stop_kolibri_timeout_source with
  | some _ => st
  | none =>
    { st with
      stop_kolibri_timeout_source := some st.next_source_id,
      next_source_id := st.next_source_id + 1 }

/-- Embedding of `PublicDBusInterface.__cancel_stop_kolibri_timeout`
(lines 309-312): disarm the stop timer if armed. -/
def cancel_stop_kolibri_timeout {SM : Type} (st : ControllerState SM) :
    ControllerState SM :=
  match st.stop_kolibri_timeout_source with
  | some _ => { st with stop_kolibri_timeout_source := none }
  | none => st

/-- Embedding of `PublicDBusInterface.__auto_stop_timeout_cb` (lines
280-300), the reconciliation tick: run the ServiceManager cleanup hook,
then arm or disarm the stop-grace timer by the zero-clients-and-running
test, then assert or release the process hold token by the
clients-or-running test; returns `GLib.SOURCE_CONTINUE` (true). -/
def auto_stop_timeout_cb {SM : Type} (api : ServiceManagerAPI SM)
    (st : ControllerState SM) : ControllerState SM × Bool :=
  let st1 : ControllerState SM := { st with service := api.cleanup st.service }
  let st2 : ControllerState SM :=
    if st1.clients_count = 0 ∧ api.is_running st1.service = true then
      begin_stop_kolibri_timeout st1
    else
      cancel_stop_kolibri_timeout st1
  let st3 : ControllerState SM :=
    if 0 < st2.clients_count ∨ api.is_running st2.service = true then
      { st2 with app := hold_with_token st2.app ctlToken }
    else
      { st2 with app := release_with_token st2.app ctlToken }
  (st3, true)

/-- Embedding of `PublicDBusInterface.__stop_kolibri_timeout_cb` (lines
314-318), the stop-grace timer firing: stop the service only if the client
count is still zero, clear the timer handle either way, and return
`GLib.SOURCE_REMOVE` (false), so the timer never reschedules itself. -/
def stop_kolibri_timeout_cb {SM : Type} (api : ServiceManagerAPI SM)
    (st : ControllerState SM) : ControllerState SM × Bool :=
  let st1 : ControllerState SM :=
    if st.clients_count = 0 then { st with service := api.stop_kolibri st.service }
    else st
  ({ st1 with stop_kolibri_timeout_source := none }, false)

lemma mem_hold_with_token_self (st : AppHoldState) (t : Nat) :
    t ∈ (hold_with_token st t).hold_tokens := by
  by_cases hm : t ∈ st.hold_tokens <;> simp [hold_with_token, hm]

lemma not_mem_release_with_token_self (st : AppHoldState) (t : Nat) :
    t ∉ (release_with_token st t).hold_tokens := by
  by_cases hm : t ∈ st.hold_tokens <;> simp [release_with_token, hm]

/-- Claim C1: on every reconciliation tick, after the ServiceManager
cleanup hook has run, the stop-grace timer ends up armed exactly when the
client hold count is zero and the service is running (armed if it was not,
kept armed if it was; disarmed otherwise), and the controller's
process-level hold token ends up asserted exactly when the hold count is
positive or the service is running. This holds for every registry and
service state at tick time and for every ServiceManager implementation. -/
theorem c1_reconciliation_tick {SM : Type} (api : ServiceManagerAPI SM)
    (st : ControllerState SM) :
    ((auto_stop_timeout_cb api st).1.stop_kolibri_timeout_source.isSome = true
      ↔ (st.clients_count = 0
          ∧ api.is_running (api.cleanup st.service) = true)) ∧
    (ctlToken ∈ (auto_stop_timeout_cb api st).1.app.hold_tokens
      ↔ (0 < st.clients_count
          ∨ api.is_running (api.cleanup st.service) = true)) := by
  obtain ⟨sv, hc, nw, src, ns, iv, app⟩ := st
  by_cases c0 : List.length hc = 0
  · cases src <;>
      by_cases r : api.is_running (api.cleanup sv) = true <;>
        simp [auto_stop_timeout_cb, ControllerState.clients_count,
          begin_stop_kolibri_timeout, cancel_stop_kolibri_timeout, c0, r,
          mem_hold_with_token_self, not_mem_release_with_token_self]
  · have hpos : 0 < List.length hc := Nat.pos_of_ne_zero c0
    cases src <;>
      by_cases r : api.is_running (api.cleanup sv) = true <;>
        simp [auto_stop_timeout_cb, ControllerState.clients_count,
          begin_stop_kolibri_timeout, cancel_stop_kolibri_timeout, c0, r, hpos,
          mem_hold_with_token_self, not_mem_release_with_token_self]

/-- Claim C2: when the stop-grace timer fires it instructs the
ServiceManager to stop only if the client hold count is zero at fire time,
it clears its own timer handle whether or not it stopped the service, and
it returns `SOURCE_REMOVE` so it never rearms itself; when it fires with
the count still zero the ServiceManager stop is invoked exactly once. -/
theorem c2_stop_grace_fire (st : ControllerState KolibriServiceManager) :
    (stop_kolibri_timeout_cb ksmApi st).1.stop_kolibri_timeout_source = none ∧
    (stop_kolibri_timeout_cb ksmApi st).2 = false ∧
    (st.clients_count = 0 →
      (stop_kolibri_timeout_cb ksmApi st).1.service.stop_calls
        = st.service.stop_calls + 1) ∧
    (st.clients_count ≠ 0 →
      (stop_kolibri_timeout_cb ksmApi st).1.service = st.service) := by
  refine ⟨rfl, rfl, ?_, ?_⟩
  · intro h
    simp [stop_kolibri_timeout_cb, h, ksmApi, KolibriServiceManager.stop_kolibri]
  · intro h
    simp [stop_kolibri_timeout_cb, h]

/-- Concrete controller state with no held clients, used by witnesses. -/
def sampleCtl0 : ControllerState KolibriServiceManager :=
  ⟨⟨SessionRunState.Running, 0⟩, [], 1, some 1, 2, 60, initAppHold⟩

/-- Concrete controller state with one held client, used by witnesses. -/
def sampleCtl1 : ControllerState KolibriServiceManager :=
  ⟨⟨SessionRunState.Running, 0⟩, [("c", 1)], 2, some 1, 2, 60, initAppHold⟩

theorem c2_witness :
    (stop_kolibri_timeout_cb ksmApi sampleCtl0).1.service.stop_calls
        = sampleCtl0.service.stop_calls + 1 ∧
    (stop_kolibri_timeout_cb ksmApi sampleCtl1).1.service = sampleCtl1.service :=
  ⟨(c2_stop_grace_fire sampleCtl0).2.2.1 (by decide),
   (c2_stop_grace_fire sampleCtl1).2.2.2 (by decide)⟩

/-- Embedding of `DEFAULT_STOP_KOLIBRI_TIMEOUT_SECONDS` (line 26). -/
def DEFAULT_STOP_KOLIBRI_TIMEOUT_SECONDS : Nat := 60

/-- The controller state right after `PublicDBusInterface.__init__`
(lines 78-108): empty hold-client dict, no stop timer armed, default stop
interval, and a fresh application hold state. -/
def initController {SM : Type} (sm0 : SM) : ControllerState SM :=
  ⟨sm0, [], 1, none, 1, DEFAULT_STOP_KOLIBRI_TIMEOUT_SECONDS, initAppHold⟩

/-- One hold-registry event: an explicit hold, an explicit release, or a
transport-reported client disconnect. -/
inductive RegOp where
  | hold (name : String)
  | release (name : String)
  | vanish (name : String)

/-- Effect of one registry event on the controller state. -/
def applyRegOp {SM : Type} (st : ControllerState SM) : RegOp → ControllerState SM
  | RegOp.hold n => hold_for_client st n
  | RegOp.release n => release_for_client st n
  | RegOp.vanish n => on_hold_client_vanished st n

/-- Effect of a sequence of registry events. -/
def runRegOps {SM : Type} (st : ControllerState SM) (ops : List RegOp) :
    ControllerState SM :=
  ops.foldl applyRegOp st

/-- Defined from the spec's words (section 8): one step of the set of
distinct currently-held client identities — a hold inserts the identity,
a release or a disconnect removes it. -/
def specHeldStep (s : Finset String) : RegOp → Finset String
  | RegOp.hold n => insert n s
  | RegOp.release n => s.erase n
  | RegOp.vanish n => s.erase n

/-- Defined from the spec's words: the set of distinct currently-held
client identities after a sequence of events, starting from no clients. -/
def specHeldSet (ops : List RegOp) : Finset String :=
  ops.foldl specHeldStep ∅

lemma dictGet_isSome_of_mem_keys {α : Type} {β : Type} [DecidableEq α]
    {s : List (α × β)} {k : α}
    (h : k ∈ s.map Prod.fst) : (dictGet s k).isSome = true := by
  induction s with
  | nil => simp at h
  | cons p rest ih =>
    obtain ⟨k', v'⟩ := p
    by_cases hk : k' = k
    · simp [dictGet, hk]
    · have hk2 : ¬ k = k' := fun hh => hk hh.symm
      simp only [List.map_cons, List.mem_cons] at h
      rcases h with h | h
      · exact absurd h hk2
      · simp [dictGet, hk, ih h]

lemma toFinset_erase_of_nodup {α : Type} [DecidableEq α] {l : List α}
    (h : l.Nodup) (a : α) : (l.erase a).toFinset = l.toFinset.erase a := by
  ext x
  simp [List.mem_toFinset, Finset.mem_erase, h.mem_erase_iff]

lemma regInv_step {SM : Type} (st : ControllerState SM) (S : Finset String)
    (h1 : (st.hold_clients.map Prod.fst).Nodup)
    (h2 : (st.hold_clients.map Prod.fst).toFinset = S) (op : RegOp) :
    ((applyRegOp st op).hold_clients.map Prod.fst).Nodup ∧
    ((applyRegOp st op).hold_clients.map Prod.fst).toFinset
      = specHeldStep S op := by
  cases op with
  | hold n =>
    by_cases hg : (dictGet st.hold_clients n).isSome = true
    · have hmem : n ∈ st.hold_clients.map Prod.fst := by
        by_contra hc
        rw [dictGet_eq_none_of_not_mem hc] at hg
        simp at hg
      have hS : n ∈ S := h2 ▸ List.mem_toFinset.mpr hmem
      refine ⟨?_, ?_⟩
      · simpa [applyRegOp, hold_for_client, hg] using h1
      · rw [show (applyRegOp st (RegOp.hold n)) = st by
          simp [applyRegOp, hold_for_client, hg]]
        rw [h2]
        exact (Finset.insert_eq_self.mpr hS).symm
    · have hnm : n ∉ st.hold_clients.map Prod.fst := by
        intro hc
        exact hg (dictGet_isSome_of_mem_keys hc)
      have hstep : (applyRegOp st (RegOp.hold n)).hold_clients
          = dictSet st.hold_clients n st.next_watch_id := by
        simp [applyRegOp, hold_for_client, hg]
      rw [hstep, map_fst_dictSet, if_neg hnm]
      refine ⟨?_, ?_⟩
      · rw [List.nodup_append]
        refine ⟨h1, List.nodup_singleton n, ?_⟩
        intro a ha hb
        rw [List.mem_singleton] at hb
        exact hnm (hb ▸ ha)
      · rw [List.toFinset_append, h2]
        simp [specHeldStep, Finset.union_comm, Finset.insert_eq]
  | release n =>
    cases hget : dictGet st.hold_clients n with
    | some v =>
      have hstep : (applyRegOp st (RegOp.release n)).hold_clients
          = dictRemove st.hold_clients n := by
        simp [applyRegOp, release_for_client, hget]
      rw [hstep, map_fst_dictRemove]
      exact ⟨h1.erase n, by rw [toFinset_erase_of_nodup h1, h2]; rfl⟩
    | none =>
      have hnm : n ∉ st.hold_clients.map Prod.fst := fun hc => by
        have hs := dictGet_isSome_of_mem_keys hc
        rw [hget] at hs
        simp at hs
      have hS : n ∉ S := fun hc => hnm (List.mem_toFinset.mp (h2 ▸ hc))
      have hstep : applyRegOp st (RegOp.release n) = st := by
        simp [applyRegOp, release_for_client, hget]
      rw [hstep, h2]
      exact ⟨h1, (Finset.erase_eq_of_not_mem hS).symm⟩
  | vanish n =>
    cases hget : dictGet st.hold_clients n with
    | some v =>
      have hstep : (applyRegOp st (RegOp.vanish n)).hold_clients
          = dictRemove st.hold_clients n := by
        simp [applyRegOp, on_hold_client_vanished, release_for_client, hget]
      rw [hstep, map_fst_dictRemove]
      exact ⟨h1.erase n, by rw [toFinset_erase_of_nodup h1, h2]; rfl⟩
    | none =>
      have hnm : n ∉ st.hold_clients.map Prod.fst := fun hc => by
        have := dictGet_isSome_of_mem_keys hc
        rw [hget] at this
        simp at this
      have hS : n ∉ S := fun hc => hnm (List.mem_toFinset.mp (h2 ▸ hc))
      have hstep : applyRegOp st (RegOp.vanish n) = st := by
        simp [applyRegOp, on_hold_client_vanished, release_for_client, hget]
      rw [hstep, h2]
      exact ⟨h1, (Finset.erase_eq_of_not_mem hS).symm⟩

lemma regInv_run {SM : Type} (ops : List RegOp) (st : ControllerState SM)
    (S : Finset String)
    (h1 : (st.hold_clients.map Prod.fst).Nodup)
    (h2 : (st.hold_clients.map Prod.fst).toFinset = S) :
    ((runRegOps st ops).hold_clients.map Prod.fst).Nodup ∧
    ((runRegOps st ops).hold_clients.map Prod.fst).toFinset
      = ops.foldl specHeldStep S := by
  induction ops generalizing st S with
  | nil => exact ⟨h1, h2⟩
  | cons op rest ih =>
    obtain ⟨h1', h2'⟩ := regInv_step st S h1 h2 op
    exact ih _ _ h1' h2'

/-- Claim C7: for every sequence of hold, release and disconnect events
from the initial state, `clients_count` equals the number of distinct
currently-held client identities (the set the spec describes, built by
inserting on hold and erasing on release or disconnect); holding an already
held client leaves the state exactly as one hold does, and releasing a
client that is not held is a no-op. -/
theorem c7_hold_registry {SM : Type} (sm0 : SM) :
    (∀ ops : List RegOp,
      (runRegOps (initController sm0) ops).clients_count
        = (specHeldSet ops).card) ∧
    (∀ (st : ControllerState SM) (c : String),
      hold_for_client (hold_for_client st c) c = hold_for_client st c) ∧
    (∀ (st : ControllerState SM) (c : String),
      dictGet st.hold_clients c = none → release_for_client st c = st) := by
  refine ⟨?_, ?_, ?_⟩
  · intro ops
    obtain ⟨h1, h2⟩ := regInv_run ops (initController sm0) ∅
      (by simp [initController]) (by simp [initController])
    calc (runRegOps (initController sm0) ops).clients_count
        = ((runRegOps (initController sm0) ops).hold_clients.map Prod.fst).length :=
          (List.length_map _ _).symm
      _ = ((runRegOps (initController sm0) ops).hold_clients.map
            Prod.fst).toFinset.card := (List.toFinset_card_of_nodup h1).symm
      _ = (specHeldSet ops).card := by rw [h2]; rfl
  · intro st c
    by_cases hg : (dictGet st.hold_clients c).isSome = true
    · simp [hold_for_client, hg]
    · have hA : hold_for_client st c
          = { st with
              hold_clients := dictSet st.hold_clients c st.next_watch_id,
              next_watch_id := st.next_watch_id + 1 } := by
        rw [hold_for_client, if_neg hg]
      rw [hA]
      simp [hold_for_client, dictGet_dictSet_self]
  · intro st c h
    simp [release_for_client, h]

theorem c7_witness :
    release_for_client (initController (⟨SessionRunState.Stopped, 0⟩
        : KolibriServiceManager)) "a"
      = initController (⟨SessionRunState.Stopped, 0⟩ : KolibriServiceManager) :=
  (c7_hold_registry (⟨SessionRunState.Stopped, 0⟩ : KolibriServiceManager)).2.2
    (initController ⟨SessionRunState.Stopped, 0⟩) "a" (by decide)

/-- Embedding of the command-line options the application registers
(`Application.__init__` lines 414-439): the `--session` and `--system`
boolean flags (absent when not passed on the command line) and the integer
`--stop-timeout` override. -/
structure LocalOptions where
  system : Option Bool
  session : Option Bool
  stop_timeout : Option Int

/-- The configuration `do_handle_local_options` resolves: the two bus
scope selections and the effective autostop interval. -/
structure BusSelection where
  use_system_bus : Bool
  use_session_bus : Bool
  autostop_timeout : Int
deriving DecidableEq

/-- Embedding of `Application.do_handle_local_options` (lines 495-515):
`use_system_bus` is the `--system` flag value, defaulting to false;
`use_session_bus` is the `--session` flag value when given, otherwise false
when the system bus was selected and true (the default) when it was not;
`--stop-timeout` overrides the autostop interval. The method then returns
-1 to continue normal startup. -/
def do_handle_local_options (opts : LocalOptions) (autostop : Int) :
    BusSelection :=
  let use_system_bus :=
    match opts.system with
    | some b => b
    | none => false
  let use_session_bus :=
    match opts.session with
    | some b => b
    | none => if use_system_bus then false else true
  let autostop2 :=
    match opts.stop_timeout with
    | some t => t
    | none => autostop
  ⟨use_system_bus, use_session_bus, autostop2⟩

/-- Claim C9 is contradicted by the code. The inline comment at line 506
documents that `--session` and `--system` are mutually exclusive, but when
both flags are passed, `do_handle_local_options` resolves both
`use_system_bus` and `use_session_bus` to true, because the session branch
only falls back to the exclusivity rule when the `--session` flag is
absent. With neither flag given, the session scope is the default, as the
claim also states. -/
theorem c9_both_buses_selected :
    do_handle_local_options ⟨some true, some true, none⟩ 60
        = ⟨true, true, 60⟩ ∧
    do_handle_local_options ⟨none, none, none⟩ 60 = ⟨false, true, 60⟩ := by
  decide
